import Mathlib

/-!
Verification of the trillian-examples hub personality and leaf scanner.

This development is a shallow embedding of two Go source files:
  - gossip/hub/handlers.go : the HTTP protocol handlers of the hub
    personality (add-log-head, get-sth-consistency, get-proof-by-hash,
    get-entries), the error-status mapper and the response integrity
    checks;
  - registers/trillian_client/client.go : the sequential leaf scanner.

Machine integers (Go int64) are modelled as unbounded Int: every quantity
involved (tree sizes, leaf indices, counts) is far below 2^63 in all the
scenarios the theorems speak about, and the Go code performs no wrap-around
arithmetic on them.  Backends, signature verification and hashing are
modelled as explicit function parameters, mirroring their role as external
collaborators.  Handlers are pure functions from the parsed request and the
backend behaviour to the pair (list of backend calls issued, result);
a result of the form Except.error (status, msg) corresponds to the Go
handler returning a non-nil error with that HTTP status, in which case the
surrounding ServeHTTP wrapper writes only the error body, so an error
result implies that no success payload reaches the client.
-/

/-- Byte strings are lists of byte values. -/
abbrev Bytes := List Nat

/-! ## Leaf encoder / decoder

Modelled from the spec: the canonical leaf encoding is produced in Go by
tls.Marshal over api.HubLeafEntry; neither the api package nor the
certificate-transparency-go TLS codec is among the sources under
verification.  The spec (section 4.2) describes the encoding as a
deterministic, self-describing binary record: the fields sourceURL,
headData, signature in a fixed order, each length-prefixed.  Lengths are
modelled as 3-byte big-endian prefixes, so a field must be shorter than
2^24 bytes for its length to be representable. -/

/-- Big-endian 3-byte encoding of a field length. -/
def encLen (n : Nat) : Bytes := [n / 65536 % 256, n / 256 % 256, n % 256]

/-- One length-prefixed field of the canonical leaf record. -/
def encodeField (b : Bytes) : Bytes := encLen b.length ++ b

/-- Canonical leaf encoding of (sourceURL, headData, signature).
Modelled from the spec: fields in fixed order, each length-prefixed. -/
def encodeHubLeafEntry (s h sig : Bytes) : Bytes :=
  encodeField s ++ encodeField h ++ encodeField sig

/-- Read a 3-byte big-endian length from the front of a byte string. -/
def readLen : Bytes → Option (Nat × Bytes)
  | b0 :: b1 :: b2 :: rest => some (b0 * 65536 + b1 * 256 + b2, rest)
  | _ => none

/-- Read one length-prefixed field; fails if the record is too short. -/
def readField (l : Bytes) : Option (Bytes × Bytes) :=
  match readLen l with
  | none => none
  | some (n, rest) =>
    if n ≤ rest.length then some (rest.take n, rest.drop n) else none

/-- Decode the three fields of a canonical leaf record, returning the
decoded triple together with the remaining (trailing) bytes, mirroring
the rest value returned by tls.Unmarshal. -/
def decodeHubLeafEntry (l : Bytes) : Option ((Bytes × Bytes × Bytes) × Bytes) :=
  (readField l).bind fun f1 =>
    (readField f1.2).bind fun f2 =>
      (readField f2.2).bind fun f3 =>
        some ((f1.1, f2.1, f3.1), f3.2)

/-- Full decoding: succeeds only when the record is structurally complete
and followed by no trailing bytes, as enforced at every use site in
handlers.go. -/
def decodeHubLeafFull (l : Bytes) : Option (Bytes × Bytes × Bytes) :=
  (decodeHubLeafEntry l).bind fun vr => if vr.2 = [] then some vr.1 else none

lemma encLen_spec (n : Nat) (h : n < 16777216) :
    n / 65536 % 256 * 65536 + n / 256 % 256 * 256 + n % 256 = n := by
  omega

lemma readField_encodeField (b rest : Bytes) (hb : b.length < 16777216) :
    readField (encodeField b ++ rest) = some (b, rest) := by
  have hshape : encodeField b ++ rest
      = b.length / 65536 % 256 :: b.length / 256 % 256 :: b.length % 256 :: (b ++ rest) := by
    simp [encodeField, encLen]
  rw [hshape]
  simp only [readField, readLen, encLen_spec b.length hb]
  have hle : b.length ≤ (b ++ rest).length := by
    simp [List.length_append]
  rw [if_pos hle]
  have ht : (b ++ rest).take b.length = b := List.take_left b rest
  have hd : (b ++ rest).drop b.length = rest := List.drop_left b rest
  rw [ht, hd]

lemma decodeHubLeafEntry_encode (s h sig extra : Bytes)
    (hs : s.length < 16777216) (hh : h.length < 16777216) (hg : sig.length < 16777216) :
    decodeHubLeafEntry (encodeHubLeafEntry s h sig ++ extra) = some ((s, h, sig), extra) := by
  unfold decodeHubLeafEntry encodeHubLeafEntry
  rw [List.append_assoc, List.append_assoc]
  simp only [readField_encodeField s _ hs, Option.some_bind,
    readField_encodeField h _ hh, readField_encodeField sig _ hg]

lemma readField_length (l b r : Bytes) (h : readField l = some (b, r)) :
    l.length = 3 + b.length + r.length := by
  match l with
  | [] => simp [readField, readLen] at h
  | [c0] => simp [readField, readLen] at h
  | [c0, c1] => simp [readField, readLen] at h
  | c0 :: c1 :: c2 :: rest =>
    simp only [readField, readLen] at h
    split at h
    · rename_i hle
      simp only [Option.some.injEq, Prod.mk.injEq] at h
      obtain ⟨rfl, rfl⟩ := h
      simp only [List.length_cons, List.length_take, List.length_drop]
      omega
    · exact absurd h (by simp)

lemma readField_mono (p t b r b2 r2 : Bytes)
    (hq : readField (p ++ t) = some (b, r)) (hp : readField p = some (b2, r2)) :
    b2 = b ∧ r2 <+: r := by
  match p with
  | [] => simp [readField, readLen] at hp
  | [c0] => simp [readField, readLen] at hp
  | [c0, c1] => simp [readField, readLen] at hp
  | c0 :: c1 :: c2 :: rest =>
    simp only [List.cons_append, readField, readLen] at hq hp
    split at hp
    · rename_i hle
      simp only [Option.some.injEq, Prod.mk.injEq] at hp
      obtain ⟨rfl, rfl⟩ := hp
      have hle2 : c0 * 65536 + c1 * 256 + c2 ≤ (rest ++ t).length := by
        simp only [List.length_append]
        omega
      rw [if_pos hle2] at hq
      simp only [Option.some.injEq, Prod.mk.injEq] at hq
      obtain ⟨hb, hr⟩ := hq
      refine ⟨?_, ⟨t, ?_⟩⟩
      · rw [← hb, List.take_append_of_le_length hle]
      · rw [← hr, List.drop_append_of_le_length hle]
    · exact absurd hp (by simp)

lemma decodeHubLeafEntry_length (l a b c r : Bytes)
    (h : decodeHubLeafEntry l = some ((a, b, c), r)) :
    l.length = 9 + a.length + b.length + c.length + r.length := by
  unfold decodeHubLeafEntry at h
  cases h1 : readField l with
  | none => rw [h1, Option.none_bind] at h; exact absurd h (by simp)
  | some v1 =>
    obtain ⟨s1, r1⟩ := v1
    rw [h1] at h
    simp only [Option.some_bind] at h
    cases h2 : readField r1 with
    | none => rw [h2, Option.none_bind] at h; exact absurd h (by simp)
    | some v2 =>
      obtain ⟨s2, r2⟩ := v2
      rw [h2] at h
      simp only [Option.some_bind] at h
      cases h3 : readField r2 with
      | none => rw [h3, Option.none_bind] at h; exact absurd h (by simp)
      | some v3 =>
        obtain ⟨s3, r3⟩ := v3
        rw [h3] at h
        simp only [Option.some_bind] at h
        simp only [Option.some.injEq, Prod.mk.injEq] at h
        obtain ⟨⟨rfl, rfl, rfl⟩, rfl⟩ := h
        have e1 := readField_length _ _ _ h1
        have e2 := readField_length _ _ _ h2
        have e3 := readField_length _ _ _ h3
        omega

lemma decodeHubLeafEntry_mono (p t : Bytes) (v v2 : Bytes × Bytes × Bytes) (r r2 : Bytes)
    (hq : decodeHubLeafEntry (p ++ t) = some (v, r))
    (hp : decodeHubLeafEntry p = some (v2, r2)) :
    v2 = v ∧ r2 <+: r := by
  unfold decodeHubLeafEntry at hq hp
  cases hp1 : readField p with
  | none => rw [hp1, Option.none_bind] at hp; exact absurd hp (by simp)
  | some w1 =>
    obtain ⟨s1p, p1⟩ := w1
    rw [hp1] at hp
    simp only [Option.some_bind] at hp
    cases hq1 : readField (p ++ t) with
    | none => rw [hq1, Option.none_bind] at hq; exact absurd hq (by simp)
    | some u1 =>
      obtain ⟨s1q, q1⟩ := u1
      rw [hq1] at hq
      simp only [Option.some_bind] at hq
      obtain ⟨rfl, t1, rfl⟩ := readField_mono p t s1q q1 s1p p1 hq1 hp1
      cases hp2 : readField p1 with
      | none => rw [hp2, Option.none_bind] at hp; exact absurd hp (by simp)
      | some w2 =>
        obtain ⟨s2p, p2⟩ := w2
        rw [hp2] at hp
        simp only [Option.some_bind] at hp
        cases hq2 : readField (p1 ++ t1) with
        | none => rw [hq2, Option.none_bind] at hq; exact absurd hq (by simp)
        | some u2 =>
          obtain ⟨s2q, q2⟩ := u2
          rw [hq2] at hq
          simp only [Option.some_bind] at hq
          obtain ⟨rfl, t2, rfl⟩ := readField_mono p1 t1 s2q q2 s2p p2 hq2 hp2
          cases hp3 : readField p2 with
          | none => rw [hp3, Option.none_bind] at hp; exact absurd hp (by simp)
          | some w3 =>
            obtain ⟨s3p, p3⟩ := w3
            rw [hp3] at hp
            simp only [Option.some_bind] at hp
            cases hq3 : readField (p2 ++ t2) with
            | none => rw [hq3, Option.none_bind] at hq; exact absurd hq (by simp)
            | some u3 =>
              obtain ⟨s3q, q3⟩ := u3
              rw [hq3] at hq
              simp only [Option.some_bind] at hq
              obtain ⟨rfl, t3, rfl⟩ := readField_mono p2 t2 s3q q3 s3p p3 hq3 hp3
              simp only [Option.some.injEq, Prod.mk.injEq] at hq hp
              obtain ⟨rfl, rfl⟩ := hq
              obtain ⟨rfl, rfl⟩ := hp
              exact ⟨rfl, ⟨t3, rfl⟩⟩

/-- C6: for all byte strings s, h, sig (including empty ones) whose lengths
fit the 3-byte length prefix, decoding the canonical leaf encoding yields
exactly the original triple; decoding fails on any record followed by
trailing bytes and on any structurally incomplete (strictly truncated)
record. -/
theorem hubLeaf_encode_decode_roundtrip (s h sig : Bytes)
    (hs : s.length < 16777216) (hh : h.length < 16777216) (hg : sig.length < 16777216) :
    decodeHubLeafFull (encodeHubLeafEntry s h sig) = some (s, h, sig)
    ∧ (∀ extra : Bytes, extra ≠ [] →
        decodeHubLeafFull (encodeHubLeafEntry s h sig ++ extra) = none)
    ∧ (∀ p : Bytes, p <+: encodeHubLeafEntry s h sig →
        p ≠ encodeHubLeafEntry s h sig → decodeHubLeafFull p = none) := by
  have hdec : ∀ extra : Bytes,
      decodeHubLeafEntry (encodeHubLeafEntry s h sig ++ extra) = some ((s, h, sig), extra) :=
    fun extra => decodeHubLeafEntry_encode s h sig extra hs hh hg
  have hdec0 : decodeHubLeafEntry (encodeHubLeafEntry s h sig) = some ((s, h, sig), []) := by
    have := hdec []
    rwa [List.append_nil] at this
  refine ⟨?_, ?_, ?_⟩
  · unfold decodeHubLeafFull
    rw [hdec0]
    simp
  · intro extra hne
    unfold decodeHubLeafFull
    rw [hdec extra]
    simp [hne]
  · intro p hpre hne
    by_contra hsome
    cases hfull : decodeHubLeafFull p with
    | none => exact hsome hfull
    | some v =>
      obtain ⟨t, heq⟩ := hpre
      have hpq : decodeHubLeafEntry (p ++ t) = some ((s, h, sig), []) := by
        rw [heq]
        exact hdec0
      have hpdec : decodeHubLeafEntry p = some (v, []) := by
        unfold decodeHubLeafFull at hfull
        cases hd : decodeHubLeafEntry p with
        | none => rw [hd, Option.none_bind] at hfull; exact absurd hfull (by simp)
        | some w =>
          obtain ⟨v2, r2⟩ := w
          rw [hd] at hfull
          simp only [Option.some_bind] at hfull
          by_cases hr : r2 = []
          · subst hr
            rw [if_pos rfl] at hfull
            simp only [Option.some.injEq] at hfull
            subst hfull
            rfl
          · rw [if_neg hr] at hfull
            exact absurd hfull (by simp)
      obtain ⟨hv, -⟩ := decodeHubLeafEntry_mono p t (s, h, sig) v [] [] hpq hpdec
      obtain ⟨a, b, c⟩ := v
      simp only [Prod.mk.injEq] at hv
      obtain ⟨rfl, rfl, rfl⟩ := hv
      have hlp := decodeHubLeafEntry_length p a b c [] hpdec
      have hlq := decodeHubLeafEntry_length (p ++ t) a b c [] hpq
      have ht0 : t.length = 0 := by
        rw [List.length_append] at hlq
        omega
      have htnil : t = [] := List.length_eq_zero.mp ht0
      subst htnil
      rw [List.append_nil] at heq
      exact hne heq


/-- Witness for C6 at a concrete triple, including an empty signature. -/
theorem hubLeaf_encode_decode_roundtrip_witness :
    decodeHubLeafFull (encodeHubLeafEntry [1] [2, 3] []) = some ([1], [2, 3], []) :=
  (hubLeaf_encode_decode_roundtrip [1] [2, 3] [] (by decide) (by decide) (by decide)).1

/-! ## Error status mapper

Translation of toHTTPStatus in handlers.go.  A backend error is modelled by
the outcome of status.FromError on it: either it carries a gRPC status code
or it does not (ok = false), in which case the Go code maps it to
http.StatusInternalServerError.  The optional override hook
(InstanceOptions.ErrorMapper) is a function from the error to an optional
status, consulted first. -/

/-- The gRPC status codes, as in google.golang.org/grpc/codes. -/
inductive Code where
  | ok
  | canceled
  | unknown
  | invalidArgument
  | deadlineExceeded
  | notFound
  | alreadyExists
  | permissionDenied
  | resourceExhausted
  | failedPrecondition
  | aborted
  | outOfRange
  | unimplemented
  | internal
  | unavailable
  | dataLoss
  | unauthenticated
deriving DecidableEq

/-- A backend RPC error as seen by toHTTPStatus: code = none models an
error for which status.FromError reports ok = false. -/
structure GrpcError where
  code : Option Code
deriving DecidableEq

/-- The switch statement of toHTTPStatus after the override hook and the
status.FromError extraction, translated case by case from handlers.go. -/
def rpcCodeToStatus (err : GrpcError) : Nat :=
  match err.code with
  | none => 500
  | some c =>
    match c with
    | Code.ok => 200
    | Code.canceled => 408
    | Code.deadlineExceeded => 408
    | Code.invalidArgument => 400
    | Code.outOfRange => 400
    | Code.alreadyExists => 400
    | Code.notFound => 404
    | Code.permissionDenied => 403
    | Code.resourceExhausted => 403
    | Code.unauthenticated => 401
    | Code.failedPrecondition => 412
    | Code.aborted => 409
    | Code.unimplemented => 501
    | Code.unavailable => 503
    | _ => 500

/-- Translation of toHTTPStatus: consult the optional override hook first
and use its result if it accepts; otherwise fall through to the fixed
mapping. -/
def toHTTPStatus (errorMapper : Option (GrpcError → Option Nat)) (err : GrpcError) : Nat :=
  match errorMapper with
  | some f =>
    match f err with
    | some st => st
    | none => rpcCodeToStatus err
  | none => rpcCodeToStatus err

/-- Modelled from the spec, for refinement comparison only (section 4.9):
the fixed table from backend failure category to transport status, written
as an ordered lookup list exactly following the words of the spec. -/
def specFixedTable : List (List Code × Nat) :=
  [([Code.ok], 200),
   ([Code.canceled, Code.deadlineExceeded], 408),
   ([Code.invalidArgument, Code.outOfRange, Code.alreadyExists], 400),
   ([Code.notFound], 404),
   ([Code.permissionDenied, Code.resourceExhausted], 403),
   ([Code.unauthenticated], 401),
   ([Code.failedPrecondition], 412),
   ([Code.aborted], 409),
   ([Code.unimplemented], 501),
   ([Code.unavailable], 503)]

/-- Modelled from the spec, for refinement comparison only (section 4.9):
an error with no backend failure category maps to internal-error; otherwise
the first row of the fixed table holding its code applies; anything else is
internal-error. -/
def specStatusOf (err : GrpcError) : Nat :=
  match err.code with
  | none => 500
  | some c =>
    match specFixedTable.find? (fun row => row.1.contains c) with
    | some row => row.2
    | none => 500

lemma rpcCodeToStatus_eq_spec (err : GrpcError) : rpcCodeToStatus err = specStatusOf err := by
  obtain ⟨c⟩ := err
  cases c with
  | none => rfl
  | some c0 => cases c0 <;> rfl

/-- C5: the status mapper consults the override hook first and uses its
result whenever it accepts; when the hook declines or is absent, the result
is exactly the fixed table of the spec, with errors carrying no backend
failure category mapped to internal-error. -/
theorem toHTTPStatus_matches_spec :
    (∀ (f : GrpcError → Option Nat) (err : GrpcError) (st : Nat),
        f err = some st → toHTTPStatus (some f) err = st)
    ∧ (∀ (f : GrpcError → Option Nat) (err : GrpcError),
        f err = none → toHTTPStatus (some f) err = specStatusOf err)
    ∧ (∀ err : GrpcError, toHTTPStatus none err = specStatusOf err) := by
  refine ⟨?_, ?_, ?_⟩
  · intro f err st hf
    simp [toHTTPStatus, hf]
  · intro f err hf
    simp [toHTTPStatus, hf, rpcCodeToStatus_eq_spec]
  · intro err
    simp [toHTTPStatus, rpcCodeToStatus_eq_spec]

/-- Witness for C5: an accepting override hook wins over the fixed table. -/
theorem toHTTPStatus_matches_spec_witness :
    toHTTPStatus (some (fun _ => some 418)) (GrpcError.mk (some Code.notFound)) = 418 :=
  toHTTPStatus_matches_spec.1 (fun _ => some 418) (GrpcError.mk (some Code.notFound)) 418 rfl

/-! ## Leaf scanner

Translation of Scan in registers/trillian_client/client.go.  The backend
is a function from a start index to the GetLeavesByRange response (always
requested with count CHUNK); an RPC error aborts the scan fatally
(log.Fatalf).  The consumer s.Leaf is a function from (index, leaf) to an
optional error.  The scan is written with explicit fuel bounding the
number of outer loop iterations; every theorem supplies enough fuel for
the scenario it describes, so the fuel never changes which branch the
translation takes.  The scan returns the list of consumer invocations
(index, leaf) it performed, in order, together with its outcome. -/

/-- Fixed chunk size of the scanner. -/
def CHUNK : Int := 10

/-- A GetLeavesByRange response as used by Scan: an optional tree-size
revision (the skew signal) and the leaves, each possibly absent (nil). -/
structure GetLeavesByRangeRsp (L : Type) where
  skewSet : Bool
  skewTreeSize : Int
  leaves : List (Option L)

/-- Outcome of a scan. -/
inductive ScanResult (E : Type) where
  | ok
  | consumerErr (e : E)
  | fatalRPC (n : Int)
  | fatalNoProgress (n : Int)
  | fatalNilLeaf (n : Int)
  | outOfFuel
deriving DecidableEq

/-- The inner loop of Scan: walk the leaves of one chunk while n < ts,
aborting fatally on a nil leaf and propagating the first consumer error.
Returns the consumer invocations performed, the final cursor, and the
abort result if any. -/
def leafLoop {L E : Type} (s : Int → L → Option E) :
    List (Option L) → Int → Int → List (Int × L) × Int × Option (ScanResult E)
  | [], n, _ => ([], n, none)
  | q :: rest, n, ts =>
    if n < ts then
      match q with
      | none => ([], n, some (ScanResult.fatalNilLeaf n))
      | some leaf =>
        match s n leaf with
        | some e => ([(n, leaf)], n, some (ScanResult.consumerErr e))
        | none =>
          match leafLoop s rest (n + 1) ts with
          | (tr, n2, res) => ((n, leaf) :: tr, n2, res)
    else ([], n, none)

/-- The outer loop of Scan: while n < ts, fetch a chunk at n, adopt any
skew revision of the tree size, abort fatally if the response holds zero
leaves while n < ts, and otherwise run the inner loop over the chunk. -/
def scanLoop {L E : Type} (backend : Int → Except Unit (GetLeavesByRangeRsp L))
    (s : Int → L → Option E) : Nat → Int → Int → List (Int × L) × ScanResult E
  | 0, _, _ => ([], ScanResult.outOfFuel)
  | Nat.succ fuel, n, ts =>
    if n < ts then
      match backend n with
      | Except.error _ => ([], ScanResult.fatalRPC n)
      | Except.ok r =>
        let ts2 := if r.skewSet then r.skewTreeSize else ts
        if decide (n < ts2) && r.leaves.isEmpty then
          ([], ScanResult.fatalNoProgress n)
        else
          match leafLoop s r.leaves n ts2 with
          | (tr, _, some res) => (tr, res)
          | (tr, n2, none) =>
            match scanLoop backend s fuel n2 ts2 with
            | (tr2, res) => (tr ++ tr2, res)
    else ([], ScanResult.ok)

/-- Scan: fetch the latest tree size from the backend root request and run
the scan loop from cursor 0. -/
def Scan {L E : Type} (latestTreeSize : Except Unit Int)
    (backend : Int → Except Unit (GetLeavesByRangeRsp L))
    (s : Int → L → Option E) (fuel : Nat) : List (Int × L) × ScanResult E :=
  match latestTreeSize with
  | Except.error _ => ([], ScanResult.fatalRPC 0)
  | Except.ok ts => scanLoop backend s fuel 0 ts

/-- A backend that reports no skew and serves, from each start index, the
next CHUNK leaves of a log of size ts0 (fewer at the tail). -/
def chunkOf {L : Type} (leafAt : Int → L) (ts0 n : Int) : List (Option L) :=
  (List.range (min CHUNK (ts0 - n)).toNat).map (fun (i : Nat) => some (leafAt (n + (i : Nat))))

/-- The honest chunked backend used by C1. -/
def honestBackend {L : Type} (leafAt : Int → L) (ts0 : Int) (n : Int) :
    Except Unit (GetLeavesByRangeRsp L) :=
  Except.ok { skewSet := false, skewTreeSize := 0, leaves := chunkOf leafAt ts0 n }

lemma map_range_cast_shift {α : Type} (f : Int → α) (k m : Nat) (n : Int) :
    (List.range m).map (fun (i : Nat) => f (n + ((k + i : Nat) : Int)))
      = (List.range m).map (fun (i : Nat) => f ((n + (k : Int)) + ((i : Nat) : Int))) := by
  apply List.map_congr_left
  intro i _
  congr 1
  push_cast
  ring_nf

lemma leafLoop_map_range {L E : Type} (s : Int → L → Option E) (leafAt : Int → L)
    (hs : ∀ n l, s n l = none) (ts : Int) :
    ∀ (k : Nat) (n : Int), n + (k : Int) ≤ ts →
    leafLoop s ((List.range k).map (fun (i : Nat) => some (leafAt (n + (i : Nat))))) n ts
      = ((List.range k).map (fun (i : Nat) => (n + (i : Nat), leafAt (n + (i : Nat)))),
         n + (k : Int), none) := by
  intro k
  induction k with
  | zero =>
    intro n hn
    simp [leafLoop]
  | succ k ih =>
    intro n hn
    have hlt : n < ts := by
      push_cast at hn
      omega
    have hfun1 : ∀ i : Nat, some (leafAt (n + ((i + 1 : Nat) : Int)))
        = some (leafAt ((n + 1) + (i : Int))) := by
      intro i
      congr 1
      push_cast
      ring_nf
    have hfun2 : ∀ i : Nat, (n + ((i + 1 : Nat) : Int), leafAt (n + ((i + 1 : Nat) : Int)))
        = ((n + 1) + (i : Int), leafAt ((n + 1) + (i : Int))) := by
      intro i
      have : n + ((i + 1 : Nat) : Int) = (n + 1) + (i : Int) := by
        push_cast
        ring_nf
      rw [this]
    rw [List.range_succ_eq_map]
    simp only [List.map_cons, List.map_map, Function.comp_def, Nat.succ_eq_add_one]
    rw [List.map_congr_left (fun i _ => hfun1 i)]
    rw [List.map_congr_left (fun i _ => hfun2 i)]
    simp only [leafLoop, if_pos hlt, hs, Nat.cast_zero, add_zero]
    rw [ih (n + 1) (by push_cast at hn ⊢; omega)]
    simp only [Prod.mk.injEq, and_true, true_and]
    push_cast
    ring_nf

lemma scanLoop_honest {L E : Type} (leafAt : Int → L) (s : Int → L → Option E)
    (hs : ∀ n l, s n l = none) (ts0 : Int) :
    ∀ (fuel : Nat) (n : Int), 0 ≤ n → n ≤ ts0 → (ts0 - n).toNat < fuel →
    scanLoop (honestBackend leafAt ts0) s fuel n ts0
      = ((List.range (ts0 - n).toNat).map (fun (i : Nat) => (n + (i : Nat), leafAt (n + (i : Nat)))),
         ScanResult.ok) := by
  intro fuel
  induction fuel with
  | zero =>
    intro n h0 hn hf
    omega
  | succ fuel ih =>
    intro n h0 hn hf
    by_cases hlt : n < ts0
    · have hk1 : (1 : Int) ≤ min CHUNK (ts0 - n) := by
        simp only [CHUNK]
        omega
      have hkcast : (((min CHUNK (ts0 - n)).toNat : Int)) = min CHUNK (ts0 - n) :=
        Int.toNat_of_nonneg (by omega)
      set k : Nat := (min CHUNK (ts0 - n)).toNat with hkdef
      have hkpos : 1 ≤ k := by omega
      have hkle : n + (k : Int) ≤ ts0 := by
        rw [hkcast]
        omega
      have hne : (chunkOf leafAt ts0 n).isEmpty = false := by
        unfold chunkOf
        rw [← hkdef]
        simp only [List.isEmpty_eq_false, ne_eq, List.map_eq_nil_iff, List.range_eq_nil]
        omega
      simp only [scanLoop, if_pos hlt, honestBackend]
      simp only [Bool.false_eq_true, if_false, hne, Bool.and_false]
      have hleaf := leafLoop_map_range s leafAt hs ts0 k n hkle
      unfold chunkOf
      rw [← hkdef, hleaf]
      have hih := ih (n + (k : Int)) (by omega) hkle (by omega)
      dsimp only
      rw [hih]
      have hsplit : (ts0 - n).toNat = k + (ts0 - (n + (k : Int))).toNat := by
        omega
      rw [hsplit, List.range_add, List.map_append, List.map_map]
      simp only [Prod.mk.injEq, and_true, true_and]
      refine congrArg _ ?_
      apply List.map_congr_left
      intro i _
      simp only [Function.comp_apply]
      have hcast : (n + (k : Int)) + (i : Int) = n + ((k + i : Nat) : Int) := by
        push_cast
        ring_nf
      rw [hcast]
    · have hts : (ts0 - n).toNat = 0 := by omega
      simp only [scanLoop, if_neg hlt, hts, List.range_zero, List.map_nil]

/-- C1: against a backend with initial tree size ts0 that serves leaves in
fixed-size chunks and reports no skew, and a consumer that never fails,
Scan invokes the consumer exactly ts0 times with indices 0, 1, ..., ts0 - 1
in strictly increasing order, each leaf exactly once, and terminates with
success, i.e. exactly when the cursor reaches ts0 (the invocation trace is
exactly the identity enumeration of the first ts0 indices). -/
theorem Scan_honest_delivers_every_leaf {L E : Type} (leafAt : Int → L)
    (s : Int → L → Option E) (hs : ∀ n l, s n l = none)
    (ts0 : Int) (h0 : 0 ≤ ts0) (fuel : Nat) (hf : ts0.toNat < fuel) :
    Scan (Except.ok ts0) (honestBackend leafAt ts0) s fuel
      = ((List.range ts0.toNat).map (fun (i : Nat) => ((i : Int), leafAt (i : Int))),
         ScanResult.ok) := by
  have h := scanLoop_honest leafAt s hs ts0 fuel 0 (by omega) h0 (by omega)
  simp only [sub_zero, zero_add] at h
  unfold Scan
  exact h

/-- Witness for C1: tree size 25 with chunk size 10 gives exactly the trace
of indices 0..24 in order and a successful scan. -/
theorem Scan_honest_delivers_every_leaf_witness :
    Scan (Except.ok 25) (honestBackend (fun i => i) 25) (fun _ _ => (none : Option Unit)) 26
      = ((List.range (25 : Int).toNat).map (fun (i : Nat) => ((i : Int), (i : Int))),
         ScanResult.ok) :=
  Scan_honest_delivers_every_leaf (fun i => i) (fun _ _ => none) (fun _ _ => rfl)
    25 (by decide) 26 (by decide)

/-- C9: whenever the cursor n is strictly below the believed tree size (so
the loop issues a chunk request), and the response carries zero leaves
while n is still below the tree size after adopting any skew revision, the
scan aborts immediately with a fatal error, performing no retry and no
further consumer invocation. -/
theorem scan_zero_leaf_chunk_aborts {L E : Type}
    (backend : Int → Except Unit (GetLeavesByRangeRsp L)) (s : Int → L → Option E)
    (fuel : Nat) (n ts : Int) (r : GetLeavesByRangeRsp L)
    (hb : backend n = Except.ok r) (hn : n < ts) (hempty : r.leaves = [])
    (hn2 : n < (if r.skewSet then r.skewTreeSize else ts)) :
    scanLoop backend s (fuel + 1) n ts = ([], ScanResult.fatalNoProgress n) := by
  have hguard : (decide (n < if r.skewSet then r.skewTreeSize else ts)
      && r.leaves.isEmpty) = true := by
    rw [hempty]
    simp [hn2]
  simp only [scanLoop, if_pos hn, hb, hguard, if_true]

/-- Witness for C9 at a concrete zero-leaf response. -/
theorem scan_zero_leaf_chunk_aborts_witness :
    scanLoop (fun _ => Except.ok (GetLeavesByRangeRsp.mk false 0 ([] : List (Option Int))))
      (fun _ _ => (none : Option Unit)) 1 0 5 = ([], ScanResult.fatalNoProgress 0) :=
  scan_zero_leaf_chunk_aborts _ _ 0 0 5 _ rfl (by decide) rfl (by decide)

/-! ## Hub protocol handlers

Translation of the handlers in gossip/hub/handlers.go.  Request parameters
are modelled after parsing: an Option Int stands for the outcome of
strconv.ParseInt on a form value (none = missing or malformed), and the
richer ReqParam type distinguishes a missing parameter from a malformed
one where the Go code does.  The backend (trillian.TrillianLogClient) is a
function parameter; each handler returns the list of backend calls it
issued together with its result.  Response messages are modelled as fixed
strings (the Go code interpolates dynamic detail into them, which no claim
depends on). -/

/-- Default maximum get-entries page size (defaultMaxGetEntries). -/
def defaultMaxGetEntries : Int := 1000

/-- sha256.Size. -/
def sha256Size : Nat := 32

/-- Translation of checkHashSizes: the index of the first proof node whose
length differs from the SHA-256 digest size, or none when every node is
well-sized (the Go function returns an error naming that index, or nil). -/
def checkHashSizes : List Bytes → Option Nat
  | [] => none
  | nd :: rest =>
    if nd.length ≠ sha256Size then some 0
    else (checkHashSizes rest).map (fun i => i + 1)

/-- trillian.SignedLogRoot, restricted to the field the handlers read. -/
structure SignedLogRoot where
  treeSize : Int
deriving DecidableEq

/-- trillian.LogLeaf as read back from the backend. -/
structure LogLeaf where
  leafIndex : Int
  leafValue : Bytes
deriving DecidableEq

/-- trillian.GetLeavesByRangeResponse as used by getEntries. -/
structure GetLeavesRsp where
  signedLogRoot : Option SignedLogRoot
  leaves : List LogLeaf
deriving DecidableEq

def msgBadRange : String := "bad range on get-entries request"
def msgBackendLeaves : String := "backend GetLeavesByRange request failed"
def msgTreeTooSmall : String := "need tree size to get leaves"
def msgTooManyLeaves : String := "backend returned too many leaves"
def msgBadLeafIndex : String := "backend returned unexpected leaf index"
def msgDeserializeLeaf : String := "failed to deserialize Merkle leaf from backend"
def msgTrailingLeaf : String := "trailing data after Merkle leaf from backend"

/-- Translation of parseGetEntriesRange: both parameters must parse, be
nonnegative and ordered; a span wider than maxRange is clamped, anchored
at start, without an error. -/
def parseGetEntriesRange (startP endP : Option Int) (maxRange : Int) :
    Except String (Int × Int) :=
  match startP with
  | none => Except.error "parameter start is malformed"
  | some start =>
    match endP with
    | none => Except.error "parameter end is malformed"
    | some e =>
      if start < 0 ∨ e < 0 then
        Except.error "start and end parameters must be nonnegative"
      else if start > e then
        Except.error "not a valid range"
      else if e - start + 1 > maxRange then
        Except.ok (start, start + maxRange - 1)
      else
        Except.ok (start, e)

/-- The per-leaf decoding pass of getEntries: each opaque leaf payload must
decode as a canonical leaf record with no trailing bytes; the original
opaque bytes are what is accumulated for the response. -/
def decodeEntries : List LogLeaf → Except (Nat × String) (List Bytes)
  | [] => Except.ok []
  | lf :: rest =>
    match decodeHubLeafEntry lf.leafValue with
    | none => Except.error (500, msgDeserializeLeaf)
    | some (_, rem) =>
      if rem = [] then
        match decodeEntries rest with
        | Except.error e => Except.error e
        | Except.ok tl => Except.ok (lf.leafValue :: tl)
      else
        Except.error (500, msgTrailingLeaf)

/-- The response sanity checks of getEntries after the tree-size check: the
returned leaf count must not exceed the requested count and the leaf
indices must be exactly start, start+1, ... at each position. -/
def getEntriesChecks (start count : Int) (rsp : GetLeavesRsp) :
    Except (Nat × String) (List Bytes) :=
  if (rsp.leaves.length : Int) > count then
    Except.error (500, msgTooManyLeaves)
  else if rsp.leaves.enum.all (fun pr => pr.2.leafIndex == start + (pr.1 : Int)) then
    decodeEntries rsp.leaves
  else
    Except.error (500, msgBadLeafIndex)

/-- Translation of getEntries.  Returns the list of (start, count) backend
ranged-read requests issued, together with the handler result.  The Go
local variables maxRange (MaxGetEntries with its zero default) and count
(end + 1 - start) are written inline. -/
def getEntries (maxGetEntries : Int) (startP endP : Option Int)
    (errorMapper : Option (GrpcError → Option Nat))
    (backend : Int → Int → Except GrpcError GetLeavesRsp) :
    List (Int × Int) × Except (Nat × String) (List Bytes) :=
  match parseGetEntriesRange startP endP
      (if maxGetEntries = 0 then defaultMaxGetEntries else maxGetEntries) with
  | Except.error _ => ([], Except.error (400, msgBadRange))
  | Except.ok (start, e) =>
    match backend start (e + 1 - start) with
    | Except.error err =>
      ([(start, e + 1 - start)], Except.error (toHTTPStatus errorMapper err, msgBackendLeaves))
    | Except.ok rsp =>
      ([(start, e + 1 - start)],
        match rsp.signedLogRoot with
        | some slr =>
          if slr.treeSize ≤ start then Except.error (400, msgTreeTooSmall)
          else getEntriesChecks start (e + 1 - start) rsp
        | none => getEntriesChecks start (e + 1 - start) rsp)

/-- C7: a valid range wider than the configured maximum page size is
clamped to exactly that maximum, anchored at start (end becomes
start + max - 1) without an error, and the backend ranged-read is issued
for exactly the clamped count. -/
theorem getEntries_clamps_range (maxGE st en : Int)
    (h0 : 0 ≤ st) (hse : st ≤ en) (hpos : 0 < maxGE) (hwide : en - st + 1 > maxGE) :
    parseGetEntriesRange (some st) (some en) maxGE = Except.ok (st, st + maxGE - 1)
    ∧ ∀ (errorMapper : Option (GrpcError → Option Nat))
        (backend : Int → Int → Except GrpcError GetLeavesRsp),
        (getEntries maxGE (some st) (some en) errorMapper backend).1 = [(st, maxGE)] := by
  have hparse : parseGetEntriesRange (some st) (some en) maxGE
      = Except.ok (st, st + maxGE - 1) := by
    unfold parseGetEntriesRange
    dsimp only
    rw [if_neg (by omega)]
    rw [if_neg (by omega)]
    rw [if_pos (by omega)]
  refine ⟨hparse, ?_⟩
  intro em backend
  unfold getEntries
  have hmax : (if maxGE = 0 then defaultMaxGetEntries else maxGE) = maxGE :=
    if_neg (by omega)
  rw [hmax, hparse]
  dsimp only
  have hcount : st + maxGE - 1 + 1 - st = maxGE := by omega
  rw [hcount]
  cases hb : backend st maxGE with
  | error err => rfl
  | ok rsp => rfl

/-- Witness for C7: range [0, 5] against a maximum of 2 is clamped to
[0, 1] and a single backend read of count 2 is issued. -/
theorem getEntries_clamps_range_witness :
    (getEntries 2 (some 0) (some 5) none (fun _ _ => Except.error (GrpcError.mk none))).1
      = [(0, 2)] :=
  (getEntries_clamps_range 2 0 5 (by decide) (by decide) (by decide) (by decide)).2
    none (fun _ _ => Except.error (GrpcError.mk none))

/-- C4 (amended): for a get-entries request with a valid range, provided
the backend response does not fail the tree-size precondition (when a log
root is present its tree size exceeds start), a response carrying more
leaves than the requested (clamped) count, or any leaf whose index differs
from the contiguous sequence start, start+1, ... at its position, makes
the handler return an internal server error (status 500), so no leaf data
is written to the client. -/
theorem getEntries_integrity_violation_internal
    (maxGE : Int) (startP endP : Option Int)
    (em : Option (GrpcError → Option Nat))
    (backend : Int → Int → Except GrpcError GetLeavesRsp)
    (st en : Int) (rsp : GetLeavesRsp)
    (hparse : parseGetEntriesRange startP endP
        (if maxGE = 0 then defaultMaxGetEntries else maxGE) = Except.ok (st, en))
    (hb : backend st (en + 1 - st) = Except.ok rsp)
    (hroot : ∀ slr, rsp.signedLogRoot = some slr → st < slr.treeSize)
    (hviol : (rsp.leaves.length : Int) > en + 1 - st
      ∨ ∃ pr ∈ rsp.leaves.enum, pr.2.leafIndex ≠ st + (pr.1 : Int)) :
    (getEntries maxGE startP endP em backend).2 = Except.error (500, msgTooManyLeaves)
    ∨ (getEntries maxGE startP endP em backend).2 = Except.error (500, msgBadLeafIndex) := by
  have hchecks : getEntriesChecks st (en + 1 - st) rsp = Except.error (500, msgTooManyLeaves)
      ∨ getEntriesChecks st (en + 1 - st) rsp = Except.error (500, msgBadLeafIndex) := by
    unfold getEntriesChecks
    by_cases hlen : (rsp.leaves.length : Int) > en + 1 - st
    · left
      rw [if_pos hlen]
    · right
      rw [if_neg hlen]
      rcases hviol with hlen2 | ⟨pr, hmem, hne⟩
      · exact absurd hlen2 hlen
      · have hall : (rsp.leaves.enum.all
            (fun pr => pr.2.leafIndex == st + (pr.1 : Int))) = false := by
          cases hx : rsp.leaves.enum.all (fun pr => pr.2.leafIndex == st + (pr.1 : Int)) with
          | false => rfl
          | true =>
            exfalso
            have hpr := List.all_eq_true.mp hx pr hmem
            simp only [beq_iff_eq] at hpr
            exact hne hpr
        rw [hall]
        simp only [Bool.false_eq_true, if_false]
  unfold getEntries
  rw [hparse]
  dsimp only
  rw [hb]
  dsimp only
  cases hsl : rsp.signedLogRoot with
  | none => exact hchecks
  | some slr =>
    have hts := hroot slr hsl
    dsimp only
    rw [if_neg (by omega)]
    exact hchecks

/-- Backend used by the counterexample to C4 as stated: it reports a tree
size not exceeding start and, at the same time, more leaves than
requested. -/
def c4Rsp : GetLeavesRsp :=
  { signedLogRoot := some { treeSize := 0 },
    leaves := [⟨0, []⟩, ⟨1, []⟩, ⟨2, []⟩, ⟨3, []⟩] }

def c4Backend : Int → Int → Except GrpcError GetLeavesRsp :=
  fun _ _ => Except.ok c4Rsp

/-- Counterexample to C4 as stated: on the valid range [0, 2] (count 3), a
backend response carrying 4 leaves — more than the requested count — but
whose log root reports tree size 0 ≤ start makes the handler return the
client error 400 from the tree-size check, not an internal server error. -/
theorem getEntries_integrity_violation_cex :
    ((c4Rsp.leaves.length : Int) > 2 + 1 - 0)
    ∧ (getEntries 1000 (some 0) (some 2) none c4Backend).2
        = Except.error (400, msgTreeTooSmall)
    ∧ (getEntries 1000 (some 0) (some 2) none c4Backend).2
        ≠ Except.error (500, msgTooManyLeaves)
    ∧ (getEntries 1000 (some 0) (some 2) none c4Backend).2
        ≠ Except.error (500, msgBadLeafIndex) := by
  have h2 : (getEntries 1000 (some 0) (some 2) none c4Backend).2
      = Except.error (400, msgTreeTooSmall) := rfl
  refine ⟨by decide, h2, ?_, ?_⟩
  · rw [h2]
    simp only [ne_eq, Except.error.injEq, Prod.mk.injEq]
    intro hcon
    omega
  · rw [h2]
    simp only [ne_eq, Except.error.injEq, Prod.mk.injEq]
    intro hcon
    omega

/-- Backend used by the witness for the amended C4. -/
def c4wRsp : GetLeavesRsp :=
  { signedLogRoot := none,
    leaves := [⟨0, []⟩, ⟨1, []⟩, ⟨2, []⟩, ⟨3, []⟩] }

def c4wBackend : Int → Int → Except GrpcError GetLeavesRsp :=
  fun _ _ => Except.ok c4wRsp

/-- Witness for the amended C4: with no log root and an over-long leaf
list, the handler returns an internal server error. -/
theorem getEntries_integrity_violation_internal_witness :
    (getEntries 1000 (some 0) (some 2) none c4wBackend).2
        = Except.error (500, msgTooManyLeaves)
    ∨ (getEntries 1000 (some 0) (some 2) none c4wBackend).2
        = Except.error (500, msgBadLeafIndex) :=
  getEntries_integrity_violation_internal 1000 (some 0) (some 2) none c4wBackend 0 2 c4wRsp
    rfl rfl (fun slr hs => by simp [c4wRsp] at hs) (Or.inl (by decide))

/-- A string form parameter as the Go code distinguishes it: absent
(FormValue empty), present but not parseable by strconv.ParseInt, or a
parsed integer. -/
inductive ReqParam where
  | missing
  | malformed
  | value (n : Int)
deriving DecidableEq

def msgFirstRequired : String := "parameter first is required"
def msgSecondRequired : String := "parameter second is required"
def msgFirstMalformed : String := "parameter first is malformed"
def msgSecondMalformed : String := "parameter second is malformed"
def msgParamsNegative : String := "first and second params cannot be negative"
def msgParamsOrder : String := "invalid first, second params"
def msgBadConsistencyRange : String := "failed to parse consistency range"
def msgBackendConsistency : String := "backend GetConsistencyProof request failed"
def msgTreeNotBigEnough : String := "need tree size for proof"
def msgInvalidConsistencyProof : String := "backend returned invalid proof"

/-- Translation of parseGetSTHConsistencyRange: both parameters required,
parseable, nonnegative and ordered. -/
def parseGetSTHConsistencyRange (firstP secondP : ReqParam) : Except String (Int × Int) :=
  if firstP = ReqParam.missing then Except.error msgFirstRequired
  else if secondP = ReqParam.missing then Except.error msgSecondRequired
  else
    match firstP with
    | ReqParam.value first =>
      match secondP with
      | ReqParam.value second =>
        if first < 0 ∨ second < 0 then Except.error msgParamsNegative
        else if second < first then Except.error msgParamsOrder
        else Except.ok (first, second)
      | _ => Except.error msgSecondMalformed
    | _ => Except.error msgFirstMalformed

/-- trillian.GetConsistencyProofResponse as used by getSTHConsistency.
proofHashes models rsp.Proof.Hashes; none stands for a nil Go slice, which
the handler replaces by the explicitly empty proof. -/
structure GetConsistencyRsp where
  signedLogRoot : Option SignedLogRoot
  proofHashes : Option (List Bytes)
deriving DecidableEq

/-- The get-sth-consistency response body: consistency = some l is an
explicitly present JSON collection (some [] encodes as the explicit empty
collection, never null). -/
structure STHConsistencyRsp where
  consistency : Option (List Bytes)
deriving DecidableEq

/-- The response-processing tail of getSTHConsistency: hash-size check,
then serialization with nil replaced by the explicit empty proof. -/
def consistencyPost (rsp : GetConsistencyRsp) : Except (Nat × String) STHConsistencyRsp :=
  match checkHashSizes (rsp.proofHashes.getD []) with
  | some _ => Except.error (500, msgInvalidConsistencyProof)
  | none =>
    match rsp.proofHashes with
    | none => Except.ok { consistency := some [] }
    | some hs => Except.ok { consistency := some hs }

/-- Translation of getSTHConsistency.  Returns the list of (first, second)
backend consistency-proof requests issued, together with the result. -/
def getSTHConsistency (firstP secondP : ReqParam)
    (errorMapper : Option (GrpcError → Option Nat))
    (backend : Int → Int → Except GrpcError GetConsistencyRsp) :
    List (Int × Int) × Except (Nat × String) STHConsistencyRsp :=
  match parseGetSTHConsistencyRange firstP secondP with
  | Except.error _ => ([], Except.error (400, msgBadConsistencyRange))
  | Except.ok (first, second) =>
    if first ≠ 0 then
      match backend first second with
      | Except.error err =>
        ([(first, second)], Except.error (toHTTPStatus errorMapper err, msgBackendConsistency))
      | Except.ok rsp =>
        ([(first, second)],
          match rsp.signedLogRoot with
          | some slr =>
            if slr.treeSize < second then Except.error (400, msgTreeNotBigEnough)
            else consistencyPost rsp
          | none => consistencyPost rsp)
    else
      ([], Except.ok { consistency := some [] })

/-- C3: whenever the get-sth-consistency parameters parse and validate with
first = 0, the handler succeeds with the explicitly empty proof collection
and issues zero backend calls, for any value of second. -/
theorem getSTHConsistency_first_zero (firstP secondP : ReqParam)
    (errorMapper : Option (GrpcError → Option Nat))
    (backend : Int → Int → Except GrpcError GetConsistencyRsp) (second : Int)
    (hparse : parseGetSTHConsistencyRange firstP secondP = Except.ok (0, second)) :
    getSTHConsistency firstP secondP errorMapper backend
      = ([], Except.ok { consistency := some [] }) := by
  unfold getSTHConsistency
  rw [hparse]
  dsimp only
  rw [if_neg (by omega)]

/-- Witness for C3 at first = 0, second = 7. -/
theorem getSTHConsistency_first_zero_witness :
    getSTHConsistency (ReqParam.value 0) (ReqParam.value 7) none
      (fun _ _ => Except.error (GrpcError.mk none))
      = ([], Except.ok { consistency := some [] }) :=
  getSTHConsistency_first_zero (ReqParam.value 0) (ReqParam.value 7) none
    (fun _ _ => Except.error (GrpcError.mk none)) 7 rfl

/-! ## Submission handler (addLogHead)

Signature verification (tcrypto.Verify) and hashing (sha256.Sum256) are
external collaborators modelled as function parameters; the key registry
(hubInfo.cryptoMap) is a function from source URL to an optional key
descriptor, mirroring the Go map lookup.  The request body is modelled
after JSON decoding: none stands for an unreadable or unparseable body.
The first component of the result counts the backend QueueLeaves calls
issued. -/

/-- logCryptoInfo, restricted to the raw key bytes; the parsed key and
hash algorithm live inside the abstract verify function. -/
structure LogCryptoInfo where
  pubKeyData : Bytes
deriving DecidableEq

/-- api.AddLogHeadRequest after JSON decoding. -/
structure AddLogHeadRequest where
  sourceURL : String
  headData : Bytes
  signature : Bytes

/-- trillian.QueueLeavesResponse, restricted to the queued-leaf count the
handler checks; the backend returns none for a nil response object. -/
structure QueueLeavesResponse where
  queuedLeaves : List Unit

/-- The bytes of a Go string, as in []byte(req.SourceURL). -/
def strBytes (s : String) : Bytes := s.toUTF8.toList.map (fun b => b.toNat)

def msgParseBody : String := "failed to parse add-log-head body"
def msgUnknownSource : String := "unknown source log"
def msgBadSignature : String := "failed to validate signature"
def msgQueueFailed : String := "backend QueueLeaves request failed"
def msgMissingQueueRsp : String := "missing QueueLeaves response"
def msgQueueCount : String := "unexpected QueueLeaves response leaf count"

/-- Translation of addLogHead.  Returns the number of backend QueueLeaves
calls issued together with the handler result.  The tls.Marshal error
branch of the Go code is unreachable in the model because the modelled
canonical encoding is total (the spec describes encoding as deterministic
and defined for all inputs). -/
def addLogHead (sha256 : Bytes → Bytes)
    (cryptoMap : String → Option LogCryptoInfo)
    (verify : LogCryptoInfo → Bytes → Bytes → Bool)
    (errorMapper : Option (GrpcError → Option Nat))
    (body : Option AddLogHeadRequest)
    (backend : Bytes → Bytes → Except GrpcError (Option QueueLeavesResponse)) :
    Nat × Except (Nat × String) Unit :=
  match body with
  | none => (0, Except.error (400, msgParseBody))
  | some req =>
    match cryptoMap req.sourceURL with
    | none => (0, Except.error (404, msgUnknownSource))
    | some cryptoInfo =>
      if verify cryptoInfo req.headData req.signature then
        match backend (encodeHubLeafEntry (strBytes req.sourceURL) req.headData req.signature)
            (sha256 (encodeHubLeafEntry (strBytes req.sourceURL) req.headData req.signature)) with
        | Except.error err => (1, Except.error (toHTTPStatus errorMapper err, msgQueueFailed))
        | Except.ok none => (1, Except.error (500, msgMissingQueueRsp))
        | Except.ok (some rsp) =>
          if rsp.queuedLeaves.length = 1 then (1, Except.ok ())
          else (1, Except.error (500, msgQueueCount))
      else (0, Except.error (400, msgBadSignature))

/-- C2: the submission handler issues a backend append only after both the
source-key lookup and the signature verification succeed: an unknown
sourceURL yields NotFound with zero backend calls, a known key with a
failing signature yields a client validation error with zero backend
calls, and any run that issued a backend call had a known key and a
verified signature. -/
theorem addLogHead_gates_backend (sha256 : Bytes → Bytes)
    (cryptoMap : String → Option LogCryptoInfo)
    (verify : LogCryptoInfo → Bytes → Bytes → Bool)
    (errorMapper : Option (GrpcError → Option Nat))
    (req : AddLogHeadRequest)
    (backend : Bytes → Bytes → Except GrpcError (Option QueueLeavesResponse)) :
    (cryptoMap req.sourceURL = none →
      addLogHead sha256 cryptoMap verify errorMapper (some req) backend
        = (0, Except.error (404, msgUnknownSource)))
    ∧ (∀ cryptoInfo, cryptoMap req.sourceURL = some cryptoInfo →
        verify cryptoInfo req.headData req.signature = false →
        addLogHead sha256 cryptoMap verify errorMapper (some req) backend
          = (0, Except.error (400, msgBadSignature)))
    ∧ (∀ calls res,
        addLogHead sha256 cryptoMap verify errorMapper (some req) backend = (calls, res) →
        0 < calls →
        ∃ cryptoInfo, cryptoMap req.sourceURL = some cryptoInfo
          ∧ verify cryptoInfo req.headData req.signature = true) := by
  refine ⟨?_, ?_, ?_⟩
  · intro hmap
    unfold addLogHead
    dsimp only
    rw [hmap]
  · intro cryptoInfo hmap hver
    unfold addLogHead
    dsimp only
    rw [hmap]
    dsimp only
    rw [hver]
    simp only [Bool.false_eq_true, if_false]
  · intro calls res hrun hpos
    unfold addLogHead at hrun
    dsimp only at hrun
    cases hmap : cryptoMap req.sourceURL with
    | none =>
      rw [hmap] at hrun
      dsimp only at hrun
      simp only [Prod.mk.injEq] at hrun
      omega
    | some cryptoInfo =>
      rw [hmap] at hrun
      dsimp only at hrun
      refine ⟨cryptoInfo, rfl, ?_⟩
      cases hver : verify cryptoInfo req.headData req.signature with
      | true => rfl
      | false =>
        rw [hver] at hrun
        simp only [Bool.false_eq_true, if_false, Prod.mk.injEq] at hrun
        omega

/-- Witness for C2: a concrete submission with an unknown source URL gets
NotFound and no backend call. -/
theorem addLogHead_gates_backend_witness :
    addLogHead (fun _ => []) (fun _ => none) (fun _ _ _ => true) none
      (some (AddLogHeadRequest.mk "u" [] []))
      (fun _ _ => Except.error (GrpcError.mk none))
      = (0, Except.error (404, msgUnknownSource)) :=
  (addLogHead_gates_backend (fun _ => []) (fun _ => none) (fun _ _ _ => true) none
    (AddLogHeadRequest.mk "u" [] [])
    (fun _ _ => Except.error (GrpcError.mk none))).1 rfl

/-! ## Inclusion proof handler (getProofByHash) -/

/-- The hash form parameter as the Go code distinguishes it: an empty
value, a value that is not valid base64, or the decoded hash bytes. -/
inductive HashParam where
  | missing
  | badBase64
  | decoded (b : Bytes)
deriving DecidableEq

/-- trillian.Proof as used by getProofByHash; hashes = none stands for a
nil Go slice, replaced by the explicit empty audit path on output. -/
structure InclusionProof where
  leafIndex : Int
  hashes : Option (List Bytes)
deriving DecidableEq

/-- trillian.GetInclusionProofByHashResponse as used by getProofByHash. -/
structure GetInclusionRsp where
  signedLogRoot : Option SignedLogRoot
  proof : List InclusionProof
deriving DecidableEq

/-- api.GetProofByHashResponse: auditPath = some l is an explicitly
present JSON collection. -/
structure ProofByHashRsp where
  leafIndex : Int
  auditPath : Option (List Bytes)
deriving DecidableEq

def msgMissingHash : String := "missing or empty hash param"
def msgBadBase64Hash : String := "invalid base64 hash"
def msgBadTreeSize : String := "missing or invalid tree_size"
def msgBackendInclusion : String := "backend GetInclusionProofByHash request failed"
def msgTreeTooSmallForProof : String := "log returned tree size smaller than expected"
def msgNoProof : String := "backend did not return a proof"
def msgInvalidInclusionProof : String := "backend returned invalid inclusion proof"

/-- The response tail of getProofByHash after the tree-size check: the
zero-proof NotFound case, the hash-size check on the first proof, and the
response assembly with nil normalized to the explicit empty path. -/
def proofByHashPost (rsp : GetInclusionRsp) : Except (Nat × String) ProofByHashRsp :=
  match rsp.proof with
  | [] => Except.error (404, msgNoProof)
  | p0 :: _ =>
    match checkHashSizes (p0.hashes.getD []) with
    | some _ => Except.error (500, msgInvalidInclusionProof)
    | none =>
      match p0.hashes with
      | none => Except.ok { leafIndex := p0.leafIndex, auditPath := some [] }
      | some hs => Except.ok { leafIndex := p0.leafIndex, auditPath := some hs }

/-- Translation of getProofByHash. -/
def getProofByHash (hashP : HashParam) (treeSizeP : Option Int)
    (errorMapper : Option (GrpcError → Option Nat))
    (backend : Bytes → Int → Except GrpcError GetInclusionRsp) :
    Except (Nat × String) ProofByHashRsp :=
  match hashP with
  | HashParam.missing => Except.error (400, msgMissingHash)
  | HashParam.badBase64 => Except.error (400, msgBadBase64Hash)
  | HashParam.decoded leafHash =>
    match treeSizeP with
    | none => Except.error (400, msgBadTreeSize)
    | some treeSize =>
      if treeSize < 1 then Except.error (400, msgBadTreeSize)
      else
        match backend leafHash treeSize with
        | Except.error err =>
          Except.error (toHTTPStatus errorMapper err, msgBackendInclusion)
        | Except.ok rsp =>
          match rsp.signedLogRoot with
          | some slr =>
            if slr.treeSize < treeSize then Except.error (404, msgTreeTooSmallForProof)
            else proofByHashPost rsp
          | none => proofByHashPost rsp

lemma checkHashSizes_none_iff (path : List Bytes) :
    checkHashSizes path = none ↔ ∀ nd ∈ path, nd.length = sha256Size := by
  induction path with
  | nil => simp [checkHashSizes]
  | cons nd rest ih =>
    unfold checkHashSizes
    by_cases hnd : nd.length ≠ sha256Size
    · rw [if_pos hnd]
      simp only [List.mem_cons]
      constructor
      · intro hcon
        exact absurd hcon (by simp)
      · intro hall
        exact absurd (hall nd (Or.inl rfl)) hnd
    · rw [if_neg hnd]
      push_neg at hnd
      simp only [Option.map_eq_none', ih, List.mem_cons]
      constructor
      · intro hall x hx
        rcases hx with rfl | hx
        · exact hnd
        · exact hall x hx
      · intro hall x hx
        exact hall x (Or.inr hx)

lemma proofByHashPost_ok_sizes (rsp : GetInclusionRsp) (out : ProofByHashRsp)
    (h : proofByHashPost rsp = Except.ok out) :
    ∀ hs, out.auditPath = some hs → ∀ nd ∈ hs, nd.length = sha256Size := by
  unfold proofByHashPost at h
  cases hpf : rsp.proof with
  | nil => rw [hpf] at h; exact absurd h (by simp)
  | cons p0 rest =>
    rw [hpf] at h
    dsimp only at h
    cases hck : checkHashSizes (p0.hashes.getD []) with
    | some i => rw [hck] at h; exact absurd h (by simp)
    | none =>
      rw [hck] at h
      have hall := (checkHashSizes_none_iff (p0.hashes.getD [])).mp hck
      cases hh : p0.hashes with
      | none =>
        rw [hh] at h
        simp only [Except.ok.injEq] at h
        subst h
        intro hs hpath
        simp only [Option.some.injEq] at hpath
        subst hpath
        intro nd hnd
        exact absurd hnd (by simp)
      | some l =>
        rw [hh] at h
        simp only [Except.ok.injEq] at h
        subst h
        intro hs hpath
        simp only [Option.some.injEq] at hpath
        subst hpath
        intro nd hnd
        rw [hh] at hall
        exact hall nd (by simpa using hnd)

lemma consistencyPost_ok_sizes (rsp : GetConsistencyRsp) (out : STHConsistencyRsp)
    (h : consistencyPost rsp = Except.ok out) :
    ∀ hs, out.consistency = some hs → ∀ nd ∈ hs, nd.length = sha256Size := by
  unfold consistencyPost at h
  cases hck : checkHashSizes (rsp.proofHashes.getD []) with
  | some i => rw [hck] at h; exact absurd h (by simp)
  | none =>
    rw [hck] at h
    have hall := (checkHashSizes_none_iff (rsp.proofHashes.getD [])).mp hck
    cases hh : rsp.proofHashes with
    | none =>
      rw [hh] at h
      simp only [Except.ok.injEq] at h
      subst h
      intro hs hpath
      simp only [Option.some.injEq] at hpath
      subst hpath
      intro nd hnd
      exact absurd hnd (by simp)
    | some l =>
      rw [hh] at h
      simp only [Except.ok.injEq] at h
      subst h
      intro hs hpath
      simp only [Option.some.injEq] at hpath
      subst hpath
      intro nd hnd
      rw [hh] at hall
      exact hall nd (by simpa using hnd)

/-- C8: checkHashSizes accepts exactly the proofs whose nodes all have the
SHA-256 digest length; an inclusion proof is forwarded by getProofByHash,
and a consistency proof by getSTHConsistency, only if every node has
exactly that length; and for either handler, a backend response that
passes the earlier checks but carries a node of any other length makes
the handler return an internal server error. -/
theorem proof_hash_sizes_enforced :
    (∀ path : List Bytes, checkHashSizes path = none ↔ ∀ nd ∈ path, nd.length = sha256Size)
    ∧ (∀ (hashP : HashParam) (treeSizeP : Option Int)
         (errorMapper : Option (GrpcError → Option Nat))
         (backend : Bytes → Int → Except GrpcError GetInclusionRsp)
         (out : ProofByHashRsp),
         getProofByHash hashP treeSizeP errorMapper backend = Except.ok out →
         ∀ hs, out.auditPath = some hs → ∀ nd ∈ hs, nd.length = sha256Size)
    ∧ (∀ (leafHash : Bytes) (treeSize : Int)
         (errorMapper : Option (GrpcError → Option Nat))
         (backend : Bytes → Int → Except GrpcError GetInclusionRsp)
         (rsp : GetInclusionRsp) (p0 : InclusionProof) (rest : List InclusionProof),
         backend leafHash treeSize = Except.ok rsp →
         1 ≤ treeSize →
         (∀ slr, rsp.signedLogRoot = some slr → ¬ slr.treeSize < treeSize) →
         rsp.proof = p0 :: rest →
         (∃ nd ∈ p0.hashes.getD [], nd.length ≠ sha256Size) →
         getProofByHash (HashParam.decoded leafHash) (some treeSize) errorMapper backend
           = Except.error (500, msgInvalidInclusionProof))
    ∧ (∀ (firstP secondP : ReqParam)
         (errorMapper : Option (GrpcError → Option Nat))
         (backend : Int → Int → Except GrpcError GetConsistencyRsp)
         (calls : List (Int × Int)) (out : STHConsistencyRsp),
         getSTHConsistency firstP secondP errorMapper backend = (calls, Except.ok out) →
         ∀ hs, out.consistency = some hs → ∀ nd ∈ hs, nd.length = sha256Size)
    ∧ (∀ (firstP secondP : ReqParam) (first second : Int)
         (errorMapper : Option (GrpcError → Option Nat))
         (backend : Int → Int → Except GrpcError GetConsistencyRsp)
         (rsp : GetConsistencyRsp),
         parseGetSTHConsistencyRange firstP secondP = Except.ok (first, second) →
         first ≠ 0 →
         backend first second = Except.ok rsp →
         (∀ slr, rsp.signedLogRoot = some slr → ¬ slr.treeSize < second) →
         (∃ nd ∈ rsp.proofHashes.getD [], nd.length ≠ sha256Size) →
         getSTHConsistency firstP secondP errorMapper backend
           = ([(first, second)], Except.error (500, msgInvalidConsistencyProof))) := by
  refine ⟨checkHashSizes_none_iff, ?_, ?_, ?_, ?_⟩
  · intro hashP treeSizeP errorMapper backend out hok
    unfold getProofByHash at hok
    cases hashP with
    | missing => exact absurd hok (by simp)
    | badBase64 => exact absurd hok (by simp)
    | decoded leafHash =>
      cases treeSizeP with
      | none => exact absurd hok (by simp)
      | some treeSize =>
        dsimp only at hok
        by_cases hts : treeSize < 1
        · rw [if_pos hts] at hok
          exact absurd hok (by simp)
        · rw [if_neg hts] at hok
          cases hb : backend leafHash treeSize with
          | error err => rw [hb] at hok; exact absurd hok (by simp)
          | ok rsp =>
            rw [hb] at hok
            dsimp only at hok
            cases hsl : rsp.signedLogRoot with
            | none =>
              rw [hsl] at hok
              exact proofByHashPost_ok_sizes rsp out hok
            | some slr =>
              rw [hsl] at hok
              dsimp only at hok
              by_cases hlt : slr.treeSize < treeSize
              · rw [if_pos hlt] at hok
                exact absurd hok (by simp)
              · rw [if_neg hlt] at hok
                exact proofByHashPost_ok_sizes rsp out hok
  · intro leafHash treeSize errorMapper backend rsp p0 rest hb hts hroot hpf hbad
    have hck : checkHashSizes (p0.hashes.getD []) ≠ none := by
      intro hnone
      have hall := (checkHashSizes_none_iff _).mp hnone
      obtain ⟨nd, hnd, hlen⟩ := hbad
      exact hlen (hall nd hnd)
    have hpost : proofByHashPost rsp = Except.error (500, msgInvalidInclusionProof) := by
      unfold proofByHashPost
      rw [hpf]
      dsimp only
      cases hx : checkHashSizes (p0.hashes.getD []) with
      | none => exact absurd hx hck
      | some i => rfl
    unfold getProofByHash
    dsimp only
    rw [if_neg (by omega), hb]
    dsimp only
    cases hsl : rsp.signedLogRoot with
    | none => exact hpost
    | some slr =>
      dsimp only
      rw [if_neg (hroot slr hsl)]
      exact hpost
  · intro firstP secondP errorMapper backend calls out hok
    unfold getSTHConsistency at hok
    cases hparse : parseGetSTHConsistencyRange firstP secondP with
    | error e =>
      rw [hparse] at hok
      dsimp only at hok
      simp only [Prod.mk.injEq] at hok
      exact absurd hok.2 (by simp)
    | ok fs =>
      obtain ⟨first, second⟩ := fs
      rw [hparse] at hok
      dsimp only at hok
      by_cases hfz : first ≠ 0
      · rw [if_pos hfz] at hok
        cases hb : backend first second with
        | error err =>
          rw [hb] at hok
          simp only [Prod.mk.injEq] at hok
          exact absurd hok.2 (by simp)
        | ok rsp =>
          rw [hb] at hok
          dsimp only at hok
          cases hsl : rsp.signedLogRoot with
          | none =>
            rw [hsl] at hok
            simp only [Prod.mk.injEq] at hok
            exact consistencyPost_ok_sizes rsp out hok.2
          | some slr =>
            rw [hsl] at hok
            dsimp only at hok
            by_cases hlt : slr.treeSize < second
            · rw [if_pos hlt] at hok
              simp only [Prod.mk.injEq] at hok
              exact absurd hok.2 (by simp)
            · rw [if_neg hlt] at hok
              simp only [Prod.mk.injEq] at hok
              exact consistencyPost_ok_sizes rsp out hok.2
      · rw [if_neg hfz] at hok
        simp only [Prod.mk.injEq, Except.ok.injEq] at hok
        obtain ⟨-, hout⟩ := hok
        subst hout
        intro hs hpath
        simp only [Option.some.injEq] at hpath
        subst hpath
        intro nd hnd
        exact absurd hnd (by simp)
  · intro firstP secondP first second errorMapper backend rsp hparse hfz hb hroot hbad
    have hck : checkHashSizes (rsp.proofHashes.getD []) ≠ none := by
      intro hnone
      have hall := (checkHashSizes_none_iff _).mp hnone
      obtain ⟨nd, hnd, hlen⟩ := hbad
      exact hlen (hall nd hnd)
    have hpost : consistencyPost rsp = Except.error (500, msgInvalidConsistencyProof) := by
      unfold consistencyPost
      cases hx : checkHashSizes (rsp.proofHashes.getD []) with
      | none => exact absurd hx hck
      | some i => rfl
    unfold getSTHConsistency
    rw [hparse]
    dsimp only
    rw [if_pos hfz, hb]
    dsimp only
    cases hsl : rsp.signedLogRoot with
    | none => rw [hpost]
    | some slr =>
      dsimp only
      rw [if_neg (hroot slr hsl), hpost]

/-- Witness for C8: a backend inclusion proof with a 2-byte node makes the
handler return an internal server error. -/
theorem proof_hash_sizes_enforced_witness :
    getProofByHash (HashParam.decoded []) (some 1) none
      (fun _ _ => Except.ok (GetInclusionRsp.mk none [InclusionProof.mk 0 (some [[1, 2]])]))
      = Except.error (500, msgInvalidInclusionProof) :=
  proof_hash_sizes_enforced.2.2.1 [] 1 none
    (fun _ _ => Except.ok (GetInclusionRsp.mk none [InclusionProof.mk 0 (some [[1, 2]])]))
    (GetInclusionRsp.mk none [InclusionProof.mk 0 (some [[1, 2]])])
    (InclusionProof.mk 0 (some [[1, 2]])) [] rfl (by decide)
    (fun slr hs => by simp at hs) rfl ⟨[1, 2], by simp, by decide⟩

/-! ## HTTP wrapper (AppHandler.ServeHTTP)

Translation of the common request processing around every handler: the
method check, the form parsing for GET requests, and the error and
misbehaviour handling of the handler outcome.  The handler outcome is the
pair (status, optional error) the Go handler function returns; the
metrics and logging side effects are external and carry no data flow. -/

inductive HttpMethod where
  | get
  | post
deriving DecidableEq

/-- What the wrapper sends to the client: an error response (status line
plus a human-readable message body, via sendHTTPError) or the body the
handler itself wrote on its 200 success path. -/
inductive HttpRsp where
  | errorRsp (status : Nat) (msg : String)
  | handlerRsp
deriving DecidableEq

def msgMethodNotAllowed : String := "method not allowed"
def msgFormParse : String := "failed to parse form data"
def msgMisbehaved : String := "http handler misbehaved"

/-- Translation of AppHandler.ServeHTTP: reject a wrong method, reject a
GET whose form data does not parse, send the handler error when one is
returned, and turn a non-200 status without an error into a 500
internal-server-error response. -/
def serveAppHandler (method handlerMethod : HttpMethod) (parseFormOk : Bool)
    (handlerOut : Nat × Option String) : HttpRsp :=
  if method ≠ handlerMethod then HttpRsp.errorRsp 405 msgMethodNotAllowed
  else if method = HttpMethod.get ∧ parseFormOk = false then
    HttpRsp.errorRsp 400 msgFormParse
  else
    match handlerOut with
    | (st, some e) => HttpRsp.errorRsp st e
    | (st, none) =>
      if st ≠ 200 then HttpRsp.errorRsp 500 msgMisbehaved
      else HttpRsp.handlerRsp

/-- C10: a handler that returns a non-200 status with a nil error makes
the wrapper send a 500 response with the misbehaved message, and the
handler success path reaches the client only when the handler returned
status 200 with no error — so every non-success status is delivered as an
error response with a message body. -/
theorem serveHTTP_no_bare_non_200 :
    (∀ (m : HttpMethod) (parseFormOk : Bool) (st : Nat),
        (m = HttpMethod.get → parseFormOk = true) → st ≠ 200 →
        serveAppHandler m m parseFormOk (st, none) = HttpRsp.errorRsp 500 msgMisbehaved)
    ∧ (∀ (m hm : HttpMethod) (parseFormOk : Bool) (handlerOut : Nat × Option String),
        serveAppHandler m hm parseFormOk handlerOut = HttpRsp.handlerRsp →
        handlerOut.1 = 200 ∧ handlerOut.2 = none) := by
  constructor
  · intro m parseFormOk st hform hst
    unfold serveAppHandler
    rw [if_neg (by simp)]
    have hguard : ¬ (m = HttpMethod.get ∧ parseFormOk = false) := by
      rintro ⟨hm, hp⟩
      rw [hform hm] at hp
      simp at hp
    rw [if_neg hguard]
    dsimp only
    rw [if_pos hst]
  · intro m hm parseFormOk handlerOut hsrv
    unfold serveAppHandler at hsrv
    by_cases hmm : m ≠ hm
    · rw [if_pos hmm] at hsrv
      exact absurd hsrv (by simp)
    · rw [if_neg hmm] at hsrv
      by_cases hguard : m = HttpMethod.get ∧ parseFormOk = false
      · rw [if_pos hguard] at hsrv
        exact absurd hsrv (by simp)
      · rw [if_neg hguard] at hsrv
        obtain ⟨st, e⟩ := handlerOut
        cases e with
        | some err =>
          exact absurd hsrv (by simp)
        | none =>
          dsimp only at hsrv
          by_cases hst : st ≠ 200
          · rw [if_pos hst] at hsrv
            exact absurd hsrv (by simp)
          · push_neg at hst
            exact ⟨hst, rfl⟩

/-- Witness for C10: a GET handler returning 404 with no error yields the
500 misbehaved response. -/
theorem serveHTTP_no_bare_non_200_witness :
    serveAppHandler HttpMethod.get HttpMethod.get true (404, none)
      = HttpRsp.errorRsp 500 msgMisbehaved :=
  serveHTTP_no_bare_non_200.1 HttpMethod.get true 404 (fun _ => rfl) (by decide)
